import Mathlib

/-!
# Verification of the sarif-web-component filtering / discussion core

Shallow embedding of the reactive filtering, aggregation and invalidation
engine of the viewer (src/unnamed/part_000, the `Viewer` component) and of
the discussion store (src/components/Viewer.Discussion.tsx), together with
theorems settling the specification claims.

Modelling conventions:
* JS strings are Lean `String`; `toLowerCase` is `String.toLower`.
* JS `Date` timestamps are opaque `Nat` values (only identity matters).
* Mutable component state is explicit state passing; mobx reactions are
  explicit transition functions.
-/

namespace Sarif

/-! ## Data model (Viewer.Discussion.tsx) -/

/-- `Comment` from PipelineContext: author (`who`), timestamp (`when`, modelled
as `Nat`), text. Immutable once created. -/
structure Comment where
  who : String
  whenAt : Nat
  text : String
deriving DecidableEq, Repr

/-- `const statuses = ['Open', 'Closed']` -/
def statuses : List String := ["Open", "Closed"]

/-- `const dispositions = [...]` (fixed ordered list; default = first value). -/
def dispositions : List String :=
  ["Should fix, P1", "Should fix, P2", "Should fix, P3", "Ignore for 90 days",
   "Not worth fixing", "False positive", "Discussion"]

/-- `class DiscussionItem`: keyword signature, status, disposition
(initialised to `dispositions[0]` by the constructor), comment sequence. -/
structure DiscussionItem where
  keywords : String
  status : String
  disposition : String
  comments : List Comment
deriving DecidableEq, Repr

/-- The `DiscussionItem` constructor: `disposition = dispositions[0]`. -/
def DiscussionItem.make (keywords status : String) (comments : List Comment) :
    DiscussionItem :=
  ⟨keywords, status, "Should fix, P1", comments⟩

/-- The module-level seed `store.discussions` of Viewer.Discussion.tsx. -/
def seedDiscussions : List DiscussionItem :=
  [DiscussionItem.make "RULE01" "Open"
    [⟨"Michael", 0, "Lorem ipsum dolor sit amet, consectetur adipiscing elit, sed do eiusmod tempor incididunt ut labore et dolore magna aliqua."⟩,
     ⟨"Jeff", 1, "Ut enim ad minim veniam, quis nostrud exercitation ullamco laboris nisi ut aliquip ex ea commodo consequat."⟩,
     ⟨"Michael", 2, "Platea dictumst quisque sagittis purus sit amet volutpat. Urna id volutpat lacus laoreet non curabitur gravida arcu ac."⟩,
     ⟨"Jeff", 3, "Sed vulputate mi sit amet mauris commodo quis imperdiet. Sed felis eget velit aliquet sagittis id consectetur purus ut. Tincidunt tortor aliquam nulla facilisi cras fermentum odio. Turpis egestas maecenas pharetra convallis posuere morbi leo urna molestie."⟩],
   DiscussionItem.make "RULE01 RULE02" "Closed"
    [⟨"Larry", 10, "Duis aute irure dolor in reprehenderit in voluptate velit esse cillum dolore eu fugiat nulla pariatur."⟩],
   DiscussionItem.make "RULE01 RULE02 RULE03" "Open"
    [⟨"Alison", 20, "Excepteur sint occaecat cupidatat non proident, sunt in culpa qui officia deserunt mollit anim id est laborum."⟩]]

/-- `IFilterState` restricted to the two categories this core reads:
`Keywords?.value` (free-text string, possibly absent) and
`Discussion?.value` (set of status strings, possibly absent). -/
structure FilterState where
  keywordsValue : Option String
  discussionValue : Option (List String)
deriving DecidableEq, Repr

/-! ## KeywordMatcher -/

/-- JS `toLowerCase`, character by character. -/
def lowerStr (s : String) : String := ⟨s.data.map Char.toLower⟩

/-- Maximal non-empty runs of non-whitespace characters (accumulator holds the
current run, reversed). -/
def wordsAux : List Char → List Char → List String
  | [], cur => if cur.isEmpty then [] else [⟨cur.reverse⟩]
  | c :: cs, cur =>
    if c.isWhitespace then
      if cur.isEmpty then wordsAux cs [] else (⟨cur.reverse⟩ : String) :: wordsAux cs []
    else wordsAux cs (c :: cur)

/-- JS `s.split(/\s+/).filter(part => part)`: the non-empty whitespace-separated
tokens of `s`. -/
def wordsOf (s : String) : List String := wordsAux s.data []

/-- Substring prefix helper on character lists. -/
def charsPre : List Char → List Char → Bool
  | [], _ => true
  | _ :: _, [] => false
  | a :: as, b :: bs => a == b && charsPre as bs

/-- JS `haystack.includes(needle)`: `needle` occurs contiguously in
`haystack`. -/
def strIncludes (haystack needle : String) : Bool :=
  (List.range (haystack.data.length + 1)).any fun i =>
    charsPre needle.data (haystack.data.drop i)

/-- Modelled from the spec: `isMatch` is imported from `./RunStore`, a file of
this repository not present under src/. Per §4.1 (KeywordMatcher) the match is
true iff every token of the (already lower-cased, already tokenised) query is
a substring of the haystack; zero tokens match unconditionally. The call sites
in Viewer.Discussion.tsx pass a lower-cased haystack and the token list. -/
def isMatch (haystack : String) (keywords : List String) : Bool :=
  keywords.all fun k => strIncludes haystack k

/-- The tokenisation done at the call site:
`filterState.Keywords?.value.toLowerCase().split(/\s+/).filter(part => part) ?? []`. -/
def keywordTokens (fs : FilterState) : List String :=
  match fs.keywordsValue with
  | none => []
  | some v => wordsOf (lowerStr v)

/-- `Discussion.filteredDiscussions`: a thread is kept iff
(status filter empty OR thread.status ∈ status filter) AND
the keyword tokens all occur in the lower-cased signature. -/
def filteredDiscussions (discussions : List DiscussionItem) (fs : FilterState) :
    List DiscussionItem :=
  let keywords := keywordTokens fs
  let sts := fs.discussionValue.getD []
  discussions.filter fun thread =>
    let isStatusMatch := sts.isEmpty || sts.contains thread.status
    let isKeywordMatch := isMatch (lowerStr thread.keywords) keywords
    isStatusMatch && isKeywordMatch

/-- `Discussion.hasExactKeywordMatch`: true when the keyword query is absent
or empty (JS falsy), else true iff some *visible* (filtered) thread's
lower-cased signature equals the lower-cased query. -/
def hasExactKeywordMatch (discussions : List DiscussionItem) (fs : FilterState) :
    Bool :=
  match fs.keywordsValue with
  | none => true
  | some kw =>
    if kw = "" then true
    else (filteredDiscussions discussions fs).any fun d =>
      lowerStr d.keywords == lowerStr kw

/-! ## Discussion component state and actions -/

/-- The mutable state of the `Discussion` component together with the
module-level `store`: the thread list, the selection
(`selectedDiscussion`, as an index into `discussions`), and the filter
state fed in via props (owned externally, included here so filter changes
are transitions of the same machine). -/
structure DiscState where
  discussions : List DiscussionItem
  selected : Option Nat
  fs : FilterState
deriving DecidableEq, Repr

/-- Initial state: the seed store, no selection, empty filter. -/
def initDiscState : DiscState := ⟨seedDiscussions, none, ⟨none, none⟩⟩

/-- The pending-comment input of `DiscussionDetails`: `newComment` (the text
field value) and `newCommentError` (the inline error indicator). -/
structure CommentBox where
  value : String
  error : Bool
deriving DecidableEq, Repr

/-- `TextField.onChange`: store the new value and set the error indicator
iff the value is empty (JS `!this.newComment.value`). -/
def onCommentChange (_box : CommentBox) (newValue : String) : CommentBox :=
  ⟨newValue, newValue = ""⟩

/-- `TextField.onKeyPress` on Enter: unconditionally push
`new Comment(this.props.user ?? 'Anonymous', new Date(), this.newComment.value)`
onto the thread and clear the input. The error indicator is not consulted and
not updated. -/
def onCommentKeyEnter (user : Option String) (now : Nat) (box : CommentBox)
    (d : DiscussionItem) : DiscussionItem × CommentBox :=
  ({ d with comments := d.comments ++ [⟨user.getD "Anonymous", now, box.value⟩] },
   { box with value := "" })

/-- The "Start new discussion" `onClick`: build
`new DiscussionItem(keywords, statuses[0], [])` from the raw keyword query,
push it onto the store, and select it. -/
def startNewDiscussion (s : DiscState) : DiscState :=
  let kw := s.fs.keywordsValue.getD ""
  let nd := DiscussionItem.make kw "Open" []
  { s with discussions := s.discussions ++ [nd],
           selected := some s.discussions.length }

/-- The command surface of the discussion UI, as rendered actions. `post`
carries the submitted text and the timestamp of the submission. -/
inductive DiscAction where
  | setFilter (fs : FilterState)
  | select (i : Nat)
  | back
  | create
  | post (text : String) (now : Nat)
  | setStatus (i : Nat) (st : String)
  | setDisposition (i : Nat) (dis : String)
deriving DecidableEq, Repr

/-- Index into the full store of the `i`-th currently visible thread. -/
def visibleIndex (s : DiscState) (i : Nat) : Option Nat :=
  (((List.range s.discussions.length).filter fun j =>
      match s.discussions[j]? with
      | some t => decide (t ∈ filteredDiscussions s.discussions s.fs)
      | none => false))[i]?

/-- One UI step. Each action is applied exactly when the UI renders the
corresponding control: list items and the create button only in list view
(the create button moreover only when `hasExactKeywordMatch` is false), the
comment box only in detail view, the status/disposition dropdowns on any
rendered thread header with an item of the fixed enumeration. Disabled
actions leave the state unchanged. -/
def applyAction (user : Option String) (s : DiscState) : DiscAction → DiscState
  | .setFilter fs => { s with fs := fs }
  | .select i =>
    if s.selected = none then
      match visibleIndex s i with
      | some j => { s with selected := some j }
      | none => s
    else s
  | .back => { s with selected := none }
  | .create =>
    if s.selected = none ∧ hasExactKeywordMatch s.discussions s.fs = false then
      startNewDiscussion s
    else s
  | .post text now =>
    match s.selected with
    | some j =>
      match s.discussions[j]? with
      | some d =>
        { s with discussions :=
            s.discussions.set j (onCommentKeyEnter user now ⟨text, text = ""⟩ d).1 }
      | none => s
    | none => s
  | .setStatus i st =>
    if st ∈ statuses then
      match s.discussions[i]? with
      | some d => { s with discussions := s.discussions.set i { d with status := st } }
      | none => s
    else s
  | .setDisposition i dis =>
    if dis ∈ dispositions then
      match s.discussions[i]? with
      | some d => { s with discussions := s.discussions.set i { d with disposition := dis } }
      | none => s
    else s

/-- Run a sequence of UI actions from a state. -/
def runActions (user : Option String) (s : DiscState) : List DiscAction → DiscState
  | [] => s
  | a :: as => runActions user (applyAction user s a) as

/-! ## Viewer (src/unnamed/part_000): runs, aggregation, ranking -/

/-- A SARIF run; only the driver name (the search surface for sorting) is
relevant to the claims. -/
structure Run where
  driverName : String
deriving DecidableEq, Repr

/-- A SARIF log: a schema version tag and its runs. -/
structure Log where
  version : String
  runs : List Run
deriving DecidableEq, Repr

/-- The static part of a `RunStore` built by `Viewer.runStores`:
`new RunStore(run, i, ...)` captures the run and its encounter index
(`logIndex`); the filter and other references passed to the constructor do
not contribute to the aggregate's identity. `driverName` is read off the
run. -/
structure RunStore where
  run : Run
  logIndex : Nat
deriving DecidableEq, Repr

/-- Lexicographic code-point comparison of character lists (the model of JS
`localeCompare` ordering used by the driver-name sort). -/
def charsLe : List Char → List Char → Bool
  | [], _ => true
  | _ :: _, [] => false
  | a :: as, b :: bs =>
    if a.toNat < b.toNat then true
    else if b.toNat < a.toNat then false
    else charsLe as bs

/-- String comparison via `charsLe`. -/
def strLe (a b : String) : Bool := charsLe a.data b.data

/-- Stable insertion of `x` in front of the first element it is
`le`-related to. -/
def insertBy (le : α → α → Bool) (x : α) : List α → List α
  | [] => [x]
  | y :: ys => if le x y then x :: y :: ys else y :: insertBy le x ys

/-- Stable sort with respect to a total comparison, inserting earlier input
elements last so that they land in front of `le`-equivalent later ones: for a
consistent comparator this produces the unique stable sorted permutation,
i.e. the output of JS `Array.prototype.sort` (stable per the ECMAScript
specification). -/
def sortBy (le : α → α → Bool) : List α → List α
  | [] => []
  | x :: xs => insertBy le x (sortBy le xs)

/-- The runs participating in aggregation:
`[].concat(...logs.filter(log => log.version === '2.1.0').map(log => log.runs))`. -/
def qualifyingRuns (logs : List Log) : List Run :=
  ((logs.filter fun log => log.version == "2.1.0").map Log.runs).flatten

/-- Comparator of `runStores.sort((a, b) => a.driverName.localeCompare(b.driverName))`. -/
def byDriverName (a b : RunStore) : Bool := strLe a.run.driverName b.run.driverName

/-- `Viewer.runStores` (construction part): `undefined` logs yield `[]`
(interpreted as loading); otherwise one `RunStore` per qualifying run, built
in encounter order with its encounter index, then sorted by driver name. -/
def runStores (logs : Option (List Log)) : List RunStore :=
  match logs with
  | none => []
  | some logs =>
    let runs := qualifyingRuns logs
    let stores := runs.enum.map fun p => RunStore.mk p.2 p.1
    sortBy byDriverName stores

/-- Modelled from the spec: `RunStore.filteredCount` lives in `./RunStore`, a
file of this repository not present under src/. Per §4.2/§4.3 each aggregate
carries a stable identity and a `filteredCount` (int ≥ 0) recomputed against
the live filter; ranking reads only these two. `tag` is the stable identity. -/
structure RunAggregate where
  filteredCount : Nat
  tag : Nat
deriving DecidableEq, Repr

/-- `Viewer.runStoresSorted` / the Ranker:
`.slice().sorted((a, b) => b.filteredCount - a.filteredCount)`. The `sorted`
extension (from `./extension`, not present under src/) is modelled from the
spec as a non-mutating stable sort with the given comparator; the comparator
puts highest `filteredCount` first. -/
def rank (aggregates : List RunAggregate) : List RunAggregate :=
  sortBy (fun a b => decide (b.filteredCount ≤ a.filteredCount)) aggregates

/-! ## Memoized aggregate construction (`computedFn(..., { keepAlive: true })`)

`Viewer.runStores` is wrapped in mobx-utils `computedFn` with `keepAlive`:
results are memoized per argument (the raw log collection, compared by
identity) and never evicted. The construction body reads no observable
filter state, so filter changes cannot invalidate a memoized entry. We model
collection identities as `Nat` keys and aggregate object identities as
freshly allocated `Nat` ids. -/

/-- One memo entry of the `computedFn` cache: argument identity and the ids
of the aggregates built for it. -/
structure MemoEntry where
  key : Nat
  ids : List Nat
deriving DecidableEq, Repr

/-- The `computedFn` cache with a fresh-id allocator for aggregate
identities. -/
structure MemoState where
  nextId : Nat
  entries : List MemoEntry
deriving DecidableEq, Repr

/-- Cache lookup by argument identity. -/
def lookupMemo (k : Nat) : List MemoEntry → Option (List Nat)
  | [] => none
  | e :: es => if e.key = k then some e.ids else lookupMemo k es

/-- A read of `runStores(logs)` through the memo: a hit returns the cached
aggregate identities unchanged; a miss builds `numRuns` fresh aggregates and
caches them (`keepAlive`: nothing is ever evicted). -/
def readRunStores (k numRuns : Nat) (m : MemoState) : List Nat × MemoState :=
  match lookupMemo k m.entries with
  | some ids => (ids, m)
  | none =>
    let ids := (List.range numRuns).map fun i => m.nextId + i
    (ids, ⟨m.nextId + numRuns, ⟨k, ids⟩ :: m.entries⟩)

/-- The memo together with the filter: a FilterState mutation is a transition
of this pair that leaves the memo untouched (the construction body never
reads the filter's observable state). -/
def filterChange (fs' : FilterState) (c : MemoState × FilterState) :
    MemoState × FilterState :=
  (c.1, fs')

/-- Every id ever handed out is below the allocator's watermark. -/
def MemoState.wf (m : MemoState) : Prop :=
  ∀ e ∈ m.entries, ∀ i ∈ e.ids, i < m.nextId

/-! ## Invalidation protocol (PipelineContext revision / dirty flag) -/

/-- The review collaborator's invalidation state: `reviewRevision` (the
applied revision counter) and `showReviewUpdated` (the dirty flag driving the
"Some results updated" toast). -/
structure PipelineState where
  reviewRevision : Nat
  showReviewUpdated : Bool
deriving DecidableEq, Repr

/-- The three transitions touching the invalidation state. -/
inductive PipelineOp where
  | externalUpdate
  | filterChanged
  | reapply
deriving DecidableEq, Repr

/-- `externalUpdate` is modelled from the spec (the review collaborator in
`PipelineContext`, not present under src/, "sets `dirty = true`").
`filterChanged` is the `autorun` in the Viewer constructor: reading the
filter state and clearing `showReviewUpdated`. `reapply` is the toast's
`onCallToActionClick`: `showReviewUpdated = false; reviewRevision += 1`. -/
def applyPipelineOp : PipelineOp → PipelineState → PipelineState
  | .externalUpdate, s => { s with showReviewUpdated := true }
  | .filterChanged, s => { s with showReviewUpdated := false }
  | .reapply, s => ⟨s.reviewRevision + 1, false⟩

/-! ## Auxiliary definitions used in the claim statements -/

/-- "Empty after trimming" (JS `text.trim() === ''`): every character is
whitespace. -/
def trimmedEmpty (s : String) : Bool := s.data.all Char.isWhitespace

/-- Sequential comment submissions: each entry is (text, timestamp). -/
def postSeq (user : Option String) (d : DiscussionItem) :
    List (String × Nat) → DiscussionItem
  | [] => d
  | (t, now) :: rest => postSeq user (onCommentKeyEnter user now ⟨t, t = ""⟩ d).1 rest

/-- The exact-match predicate as claim C9 literally states it: true iff the
query is empty, or some visible thread's signature (as stored) equals the
lower-cased query. -/
def exactMatchClaimRHS (discussions : List DiscussionItem) (fs : FilterState) :
    Bool :=
  match fs.keywordsValue with
  | none => true
  | some kw =>
    (kw == "") || ((filteredDiscussions discussions fs).any fun d =>
      d.keywords == lowerStr kw)

/-- A filter state whose status filter hides the `RULE01` thread (status
`Open` ∉ {`Closed`}) while querying exactly `RULE01`. -/
def dupFilter : FilterState := ⟨some "RULE01", some ["Closed"]⟩

/-- The seed store viewed under `dupFilter`, nothing selected. -/
def preCreateState : DiscState := ⟨seedDiscussions, none, dupFilter⟩

/-- A fresh thread with no comments, used as a posting target. -/
def emptyThread : DiscussionItem := DiscussionItem.make "RULE09" "Open" []

/-- An empty memo cache with the id allocator at zero. -/
def memoInit : MemoState := ⟨0, []⟩

/-! ## Lemmas about the stable sort -/

theorem insertBy_perm (le : α → α → Bool) (x : α) (l : List α) :
    (insertBy le x l).Perm (x :: l) := by
  induction l with
  | nil => exact List.Perm.refl _
  | cons y ys ih =>
    simp only [insertBy]
    cases hxy : le x y
    · simpa [hxy] using (ih.cons y).trans (List.Perm.swap x y ys)
    · simp [hxy]

theorem sortBy_perm (le : α → α → Bool) (l : List α) : (sortBy le l).Perm l := by
  induction l with
  | nil => exact List.Perm.refl _
  | cons x xs ih => exact (insertBy_perm le x (sortBy le xs)).trans (ih.cons x)

theorem insertBy_pairwise (le : α → α → Bool)
    (htrans : ∀ a b c, le a b = true → le b c = true → le a c = true)
    (htot : ∀ a b, le a b = false → le b a = true) (x : α) :
    ∀ l : List α, l.Pairwise (fun a b => le a b = true) →
      (insertBy le x l).Pairwise (fun a b => le a b = true) := by
  intro l
  induction l with
  | nil => intro _; simp [insertBy]
  | cons y ys ih =>
    intro h
    rcases List.pairwise_cons.mp h with ⟨hy, hys⟩
    simp only [insertBy]
    cases hxy : le x y
    · refine List.pairwise_cons.mpr ⟨?_, ih hys⟩
      intro z hz
      rcases List.mem_cons.mp ((insertBy_perm le x ys).mem_iff.mp hz) with hz | hz
      · exact hz ▸ htot x y hxy
      · exact hy z hz
    · refine List.pairwise_cons.mpr ⟨?_, h⟩
      intro z hz
      rcases List.mem_cons.mp hz with hz | hz
      · exact hz ▸ hxy
      · exact htrans x y z hxy (hy z hz)

theorem sortBy_pairwise (le : α → α → Bool)
    (htrans : ∀ a b c, le a b = true → le b c = true → le a c = true)
    (htot : ∀ a b, le a b = false → le b a = true) (l : List α) :
    (sortBy le l).Pairwise (fun a b => le a b = true) := by
  induction l with
  | nil => simp [sortBy]
  | cons x xs ih => exact insertBy_pairwise le htrans htot x _ ih

theorem insertBy_filter (le : α → α → Bool) (p : α → Bool)
    (h : ∀ a b, p a = true → p b = true → le a b = true) (x : α) :
    ∀ l : List α, (insertBy le x l).filter p =
      if p x then x :: l.filter p else l.filter p := by
  intro l
  induction l with
  | nil => cases hpx : p x <;> simp [insertBy, List.filter, hpx]
  | cons y ys ih =>
    simp only [insertBy]
    cases hxy : le x y
    · rw [if_neg Bool.false_ne_true]
      cases hpx : p x
      · cases hpy : p y <;> simp [List.filter_cons, hpx, hpy, ih]
      · cases hpy : p y
        · simp [List.filter_cons, hpx, hpy, ih]
        · exact absurd (h x y hpx hpy) (by simp [hxy])
    · rw [if_pos rfl]
      cases hpx : p x <;> cases hpy : p y <;> simp [List.filter_cons, hpx, hpy]

theorem sortBy_filter (le : α → α → Bool) (p : α → Bool)
    (h : ∀ a b, p a = true → p b = true → le a b = true) (l : List α) :
    (sortBy le l).filter p = l.filter p := by
  induction l with
  | nil => rfl
  | cons x xs ih =>
    simp only [sortBy]
    rw [insertBy_filter le p h x (sortBy le xs), ih]
    cases hpx : p x <;> simp [List.filter_cons, hpx]

/-! ## Lemmas about the string comparison -/

theorem charsLe_refl : ∀ a : List Char, charsLe a a = true := by
  intro a
  induction a with
  | nil => rfl
  | cons x xs ih => simp [charsLe, ih]

theorem charsLe_total : ∀ a b : List Char, charsLe a b = false → charsLe b a = true := by
  intro a
  induction a with
  | nil => intro b h; simp [charsLe] at h
  | cons x xs ih =>
    intro b h
    cases b with
    | nil => rfl
    | cons y ys =>
      simp only [charsLe] at h ⊢
      by_cases hxy : x.toNat < y.toNat
      · simp [hxy] at h
      · by_cases hyx : y.toNat < x.toNat
        · simp [hyx]
        · simp only [if_neg hxy, if_neg hyx] at h
          simp [if_neg hyx, if_neg hxy, ih ys h]

theorem charsLe_trans :
    ∀ a b c : List Char, charsLe a b = true → charsLe b c = true → charsLe a c = true := by
  intro a
  induction a with
  | nil => intro b c _ _; rfl
  | cons x xs ih =>
    intro b c hab hbc
    cases b with
    | nil => simp [charsLe] at hab
    | cons y ys =>
      cases c with
      | nil => simp [charsLe] at hbc
      | cons z zs =>
        simp only [charsLe] at hab hbc ⊢
        by_cases hxy : x.toNat < y.toNat <;> by_cases hyz : y.toNat < z.toNat
        · simp [if_pos (by omega : x.toNat < z.toNat)]
        · by_cases hzy : z.toNat < y.toNat
          · simp [hyz, hzy] at hbc
          · have hxz : x.toNat < z.toNat := by omega
            simp [hxz]
        · by_cases hyx : y.toNat < x.toNat
          · simp [hxy, hyx] at hab
          · have hxz : x.toNat < z.toNat := by omega
            simp [hxz]
        · by_cases hyx : y.toNat < x.toNat
          · simp [hxy, hyx] at hab
          · by_cases hzy : z.toNat < y.toNat
            · simp [hyz, hzy] at hbc
            · have h1 : ¬ x.toNat < z.toNat := by omega
              have h2 : ¬ z.toNat < x.toNat := by omega
              simp only [if_neg hxy, if_neg hyx] at hab
              simp only [if_neg hyz, if_neg hzy] at hbc
              simp [if_neg h1, if_neg h2, ih ys zs hab hbc]

theorem byDriverName_trans (a b c : RunStore) :
    byDriverName a b = true → byDriverName b c = true → byDriverName a c = true :=
  charsLe_trans _ _ _

theorem byDriverName_total (a b : RunStore) :
    byDriverName a b = false → byDriverName b a = true :=
  charsLe_total _ _

/-! ## Claims -/

/-- C1 counterexample: in the seed store under a status filter of `Closed`
and the keyword query `RULE01`, a thread with exactly the signature `RULE01`
already exists, the create action is offered (no visible exact match), and
performing it appends a fourth thread with the duplicate signature and
selects it — no conflict error, and the store is mutated. -/
theorem C1_counterexample :
    preCreateState.fs.keywordsValue = some "RULE01" ∧
    preCreateState.discussions.map DiscussionItem.keywords =
      ["RULE01", "RULE01 RULE02", "RULE01 RULE02 RULE03"] ∧
    (preCreateState.selected = none ∧
      hasExactKeywordMatch preCreateState.discussions preCreateState.fs = false) ∧
    (applyAction none preCreateState .create).discussions.map DiscussionItem.keywords =
      ["RULE01", "RULE01 RULE02", "RULE01 RULE02 RULE03", "RULE01"] ∧
    (applyAction none preCreateState .create).selected = some 3 := by
  decide

/-- C1 (amended): thread creation never fails: whenever the action is
offered (nothing selected, no visible exact keyword match), it appends
exactly one new thread carrying the raw query as signature and selects it —
even when a thread with that exact signature already exists in the store. -/
theorem C1_create_appends_and_selects (user : Option String) (s : DiscState)
    (h : s.selected = none ∧ hasExactKeywordMatch s.discussions s.fs = false) :
    (applyAction user s .create).discussions =
      s.discussions ++ [DiscussionItem.make (s.fs.keywordsValue.getD "") "Open" []] ∧
    (applyAction user s .create).selected = some s.discussions.length := by
  have hc : applyAction user s .create = startNewDiscussion s := by
    simp only [applyAction, if_pos h]
  rw [hc]
  exact ⟨rfl, rfl⟩

/-- C1 witness: the amended theorem applied to the concrete duplicate-prone
state. -/
theorem C1_witness :
    (preCreateState.selected = none ∧
      hasExactKeywordMatch preCreateState.discussions preCreateState.fs = false) ∧
    ((applyAction none preCreateState .create).discussions =
      preCreateState.discussions ++
        [DiscussionItem.make (preCreateState.fs.keywordsValue.getD "") "Open" []] ∧
     (applyAction none preCreateState .create).selected =
       some preCreateState.discussions.length) :=
  ⟨⟨rfl, by decide⟩,
   C1_create_appends_and_selects none preCreateState ⟨rfl, by decide⟩⟩

/-- C2 counterexample: submitting a whitespace-only comment (empty after
trimming) is not blocked: the comment is appended to the (previously empty)
thread verbatim, contradicting "no comment is appended". -/
theorem C2_counterexample :
    trimmedEmpty " " = true ∧
    emptyThread.comments = [] ∧
    (onCommentKeyEnter none 7 ⟨" ", false⟩ emptyThread).1.comments =
      [⟨"Anonymous", 7, " "⟩] := by
  decide

/-- C2 (amended): submitting the comment box always appends exactly one
Comment at the tail — author from the supplied identity, the current
timestamp, the pending text verbatim (empty or not) — and clears the
pending-input value; the inline error indicator (set while editing when the
text is empty) never blocks submission. N sequential submissions append in
submission order. -/
theorem C2_post_always_appends (user : Option String) (now : Nat)
    (box : CommentBox) (d : DiscussionItem) :
    (onCommentKeyEnter user now box d).1.comments =
      d.comments ++ [⟨user.getD "Anonymous", now, box.value⟩] ∧
    (onCommentKeyEnter user now box d).2.value = "" ∧
    ∀ posts : List (String × Nat),
      (postSeq user d posts).comments =
        d.comments ++ posts.map fun p => ⟨user.getD "Anonymous", p.2, p.1⟩ := by
  refine ⟨rfl, rfl, ?_⟩
  intro posts
  induction posts generalizing d with
  | nil => simp [postSeq]
  | cons p rest ih =>
    cases p with
    | mk t now' => simp [postSeq, onCommentKeyEnter, ih]

/-- C3 counterexample: from the initial store, setting the filter to status
`Closed` with query `RULE01` and then creating a thread reaches a state in
which two threads carry the signature `RULE01`: keyword signatures are not
unique across reachable states. -/
theorem C3_counterexample :
    ¬ ((runActions none initDiscState
        [.setFilter dupFilter, .create]).discussions.map
          DiscussionItem.keywords).Nodup := by
  decide

/-- C3 (amended): uniqueness is only enforced against the currently visible
threads: whenever the create action fires, the new thread's signature differs
case-insensitively from every visible thread's signature; globally duplicate
signatures are reachable. -/
theorem C3_created_signature_unique_among_visible (s : DiscState)
    (h : s.selected = none ∧ hasExactKeywordMatch s.discussions s.fs = false) :
    ∀ d ∈ filteredDiscussions s.discussions s.fs,
      lowerStr d.keywords ≠ lowerStr (s.fs.keywordsValue.getD "") := by
  intro d hd heq
  rcases h with ⟨-, hmatch⟩
  cases hkv : s.fs.keywordsValue with
  | none => simp [hasExactKeywordMatch, hkv] at hmatch
  | some kw =>
    by_cases hkw : kw = ""
    · simp [hasExactKeywordMatch, hkv, hkw] at hmatch
    · simp only [hasExactKeywordMatch, hkv, if_neg hkw] at hmatch
      rw [List.any_eq_false] at hmatch
      have hne := hmatch d hd
      rw [hkv] at heq
      simp only [Option.getD_some] at heq
      exact hne (by simp [heq])

/-- C3 witness: the amended per-creation guarantee at the concrete
duplicate-prone state. -/
theorem C3_witness :
    (preCreateState.selected = none ∧
      hasExactKeywordMatch preCreateState.discussions preCreateState.fs = false) ∧
    ∀ d ∈ filteredDiscussions preCreateState.discussions preCreateState.fs,
      lowerStr d.keywords ≠ lowerStr (preCreateState.fs.keywordsValue.getD "") :=
  ⟨⟨rfl, by decide⟩,
   C3_created_signature_unique_among_visible preCreateState ⟨rfl, by decide⟩⟩

/-- C4 counterexample: for a collection with one supported log whose runs
have driver names `b` then `a` (plus one legacy log that is dropped), the
aggregator emits one aggregate per qualifying run but sorted by driver name
`[a, b]`, not in the original encounter order `[b, a]`. -/
theorem C4_counterexample :
    (qualifyingRuns [⟨"2.1.0", [⟨"b"⟩, ⟨"a"⟩]⟩, ⟨"2.0.0", [⟨"c"⟩]⟩]).map
        Run.driverName = ["b", "a"] ∧
    (runStores (some [⟨"2.1.0", [⟨"b"⟩, ⟨"a"⟩]⟩, ⟨"2.0.0", [⟨"c"⟩]⟩])).map
        (fun s => s.run.driverName) = ["a", "b"] ∧
    (runStores (some [⟨"2.1.0", [⟨"b"⟩, ⟨"a"⟩]⟩, ⟨"2.0.0", [⟨"c"⟩]⟩])).map
        (fun s => s.run) ≠
      qualifyingRuns [⟨"2.1.0", [⟨"b"⟩, ⟨"a"⟩]⟩, ⟨"2.0.0", [⟨"c"⟩]⟩] := by
  decide

/-- C4 (amended): the aggregator produces exactly one RunAggregate per
qualifying run — each keeping its encounter index as identity — but the
produced sequence is ordered by driver name (ascending), not in encounter
order; an absent collection yields the empty sequence. -/
theorem C4_one_per_qualifying_run_sorted_by_driver (logs : List Log) :
    ((runStores (some logs)).map fun s => (s.logIndex, s.run)).Perm
      (qualifyingRuns logs).enum ∧
    (runStores (some logs)).Pairwise (fun a b => byDriverName a b = true) ∧
    runStores none = [] := by
  refine ⟨?_, ?_, rfl⟩
  · have hperm :=
      (sortBy_perm byDriverName
        ((qualifyingRuns logs).enum.map fun p => RunStore.mk p.2 p.1)).map
        fun s : RunStore => (s.logIndex, s.run)
    have hmm :
        (((qualifyingRuns logs).enum.map fun p => RunStore.mk p.2 p.1).map
          fun s : RunStore => (s.logIndex, s.run)) = (qualifyingRuns logs).enum := by
      rw [List.map_map]
      exact List.map_id _
    rw [hmm] at hperm
    exact hperm
  · exact sortBy_pairwise byDriverName byDriverName_trans byDriverName_total _

/-- C5: ranking sorts any aggregate sequence by `filteredCount` descending
and is stable: it is a permutation of the input, pairwise non-increasing in
`filteredCount`, and the subsequence of aggregates with any fixed count is
preserved; on counts `[3,1,3,0]` (tags 0..3) it yields `[3,3,1,0]` with the
two 3s (tags 0 and 2) in original relative order. -/
theorem C5_rank_descending_stable :
    (∀ l : List RunAggregate,
      (rank l).Perm l ∧
      (rank l).Pairwise (fun a b => b.filteredCount ≤ a.filteredCount) ∧
      ∀ c : Nat,
        (rank l).filter (fun a => a.filteredCount == c) =
          l.filter (fun a => a.filteredCount == c)) ∧
    (rank [⟨3, 0⟩, ⟨1, 1⟩, ⟨3, 2⟩, ⟨0, 3⟩]).map RunAggregate.filteredCount =
      [3, 3, 1, 0] ∧
    (rank [⟨3, 0⟩, ⟨1, 1⟩, ⟨3, 2⟩, ⟨0, 3⟩]).map RunAggregate.tag = [0, 2, 1, 3] := by
  refine ⟨?_, by decide, by decide⟩
  intro l
  refine ⟨sortBy_perm _ l, ?_, ?_⟩
  · have hp := sortBy_pairwise (fun a b => decide (b.filteredCount ≤ a.filteredCount))
      (fun a b c hab hbc => by
        simp only [decide_eq_true_eq] at hab hbc ⊢; omega)
      (fun a b hab => by
        simp only [decide_eq_false_iff_not] at hab
        simp only [decide_eq_true_eq]; omega) l
    exact hp.imp fun hab => of_decide_eq_true hab
  · intro c
    exact sortBy_filter _ _
      (fun a b ha hb => by
        have ha' : a.filteredCount = c := by simpa using ha
        have hb' : b.filteredCount = c := by simpa using hb
        simp [ha', hb']) l

/-- C6 counterexample: with the per-argument `computedFn` cache (`keepAlive`:
never evicted), reading collection 0, then collection 1, then collection 0
again returns the originally constructed aggregates for 0 and leaves the
cache untouched: the collection identity changed (1 → 0) yet nothing is
rebuilt, refuting the "rebuilt if the identity changes" direction. -/
theorem C6_counterexample :
    (readRunStores 0 2 memoInit).1 = [0, 1] ∧
    (readRunStores 1 2 (readRunStores 0 2 memoInit).2).1 = [2, 3] ∧
    readRunStores 0 2 (readRunStores 1 2 (readRunStores 0 2 memoInit).2).2 =
      ([0, 1], (readRunStores 1 2 (readRunStores 0 2 memoInit).2).2) := by
  decide

/-- C6 (amended): for a fixed log collection the aggregate set and its
identities survive any FilterState change — a re-read after a filter change
returns exactly the previously constructed aggregates with the cache
unchanged — and a rebuild (freshly allocated identities, disjoint from every
cached aggregate) happens exactly on collections whose identity has not been
seen before. -/
theorem C6_memo_frame (m : MemoState) (fs fs' : FilterState) (k n : Nat)
    (hwf : m.wf) :
    readRunStores k n (filterChange fs' ((readRunStores k n m).2, fs)).1 =
      ((readRunStores k n m).1, (readRunStores k n m).2) ∧
    (lookupMemo k m.entries = none →
      ∀ e ∈ m.entries, ∀ i ∈ (readRunStores k n m).1, i ∉ e.ids) := by
  constructor
  · cases hl : lookupMemo k m.entries with
    | some ids => simp [readRunStores, filterChange, hl]
    | none => simp [readRunStores, filterChange, hl, lookupMemo]
  · intro hl e he i hi hmem
    have h1 : m.nextId ≤ i := by
      simp only [readRunStores, hl, List.mem_map, List.mem_range] at hi
      rcases hi with ⟨j, _, rfl⟩
      omega
    exact absurd (hwf e he i hmem) (by omega)

/-- C6 witness: the amended theorem at the empty cache, reading collection 0
with two runs across a filter change. -/
theorem C6_witness :
    memoInit.wf ∧
    (readRunStores 0 2
        (filterChange ⟨none, none⟩ ((readRunStores 0 2 memoInit).2,
          ⟨some "x", none⟩)).1 =
      ((readRunStores 0 2 memoInit).1, (readRunStores 0 2 memoInit).2) ∧
     (lookupMemo 0 memoInit.entries = none →
      ∀ e ∈ memoInit.entries, ∀ i ∈ (readRunStores 0 2 memoInit).1, i ∉ e.ids)) :=
  ⟨fun e he => absurd he (by simp [memoInit]),
   C6_memo_frame memoInit ⟨some "x", none⟩ ⟨none, none⟩ 0 2
     (fun e he => absurd he (by simp [memoInit]))⟩

/-- C7: after an external review update raises the dirty flag, the explicit
reapply action clears it and increments the applied revision by exactly one;
no operation of the protocol ever decreases the applied revision. -/
theorem C7_reapply_clears_and_increments (s : PipelineState) :
    (applyPipelineOp .externalUpdate s).showReviewUpdated = true ∧
    (applyPipelineOp .reapply (applyPipelineOp .externalUpdate s)).showReviewUpdated
      = false ∧
    (applyPipelineOp .reapply (applyPipelineOp .externalUpdate s)).reviewRevision
      = (applyPipelineOp .externalUpdate s).reviewRevision + 1 ∧
    ∀ (t : PipelineState) (op : PipelineOp),
      t.reviewRevision ≤ (applyPipelineOp op t).reviewRevision := by
  refine ⟨rfl, rfl, rfl, ?_⟩
  intro t op
  cases op <;> simp [applyPipelineOp]

/-- C8: a FilterState mutation observed while the dirty flag is raised clears
the flag and leaves the applied revision unchanged. -/
theorem C8_filter_mutation_clears_dirty (s : PipelineState)
    (h : s.showReviewUpdated = true) :
    (applyPipelineOp .filterChanged s).showReviewUpdated = false ∧
    (applyPipelineOp .filterChanged s).reviewRevision = s.reviewRevision :=
  ⟨rfl, rfl⟩

/-- C8 witness: the theorem at a concrete dirty state. -/
theorem C8_witness :
    (PipelineState.mk 4 true).showReviewUpdated = true ∧
    ((applyPipelineOp .filterChanged ⟨4, true⟩).showReviewUpdated = false ∧
     (applyPipelineOp .filterChanged ⟨4, true⟩).reviewRevision = 4) :=
  ⟨rfl, C8_filter_mutation_clears_dirty ⟨4, true⟩ rfl⟩

/-- C9 counterexample: with one visible thread whose stored signature is
`RULE01` and the query `rule01`, the code's exact-match check is true (it
lower-cases the stored signature before comparing), while the claim's
predicate — the stored signature equals the lower-cased query — is false:
the claimed "if and only if" fails. -/
theorem C9_counterexample :
    (filteredDiscussions [DiscussionItem.make "RULE01" "Open" []]
        ⟨some "rule01", none⟩).length = 1 ∧
    hasExactKeywordMatch [DiscussionItem.make "RULE01" "Open" []]
        ⟨some "rule01", none⟩ = true ∧
    exactMatchClaimRHS [DiscussionItem.make "RULE01" "Open" []]
        ⟨some "rule01", none⟩ = false := by
  decide

/-- C9 (amended): the exact-match query is true iff the keyword query is
absent or empty, or some visible (filtered) thread's lower-cased signature
equals the lower-cased query. -/
theorem C9_exact_match_iff (discussions : List DiscussionItem)
    (fs : FilterState) :
    hasExactKeywordMatch discussions fs = true ↔
      (fs.keywordsValue = none ∨ fs.keywordsValue = some "" ∨
        ∃ d ∈ filteredDiscussions discussions fs,
          lowerStr d.keywords = lowerStr (fs.keywordsValue.getD "")) := by
  cases hkv : fs.keywordsValue with
  | none => simp [hasExactKeywordMatch, hkv]
  | some kw =>
    by_cases hkw : kw = ""
    · subst hkw
      simp [hasExactKeywordMatch, hkv]
    · simp [hasExactKeywordMatch, hkv, hkw, List.any_eq_true]

/-- C10: a comment posted with no user identity supplied records the author
`Anonymous` (the appended comment is the tail of the sequence). -/
theorem C10_anonymous_author (now : Nat) (box : CommentBox)
    (d : DiscussionItem) :
    (onCommentKeyEnter none now box d).1.comments.getLast? =
      some ⟨"Anonymous", now, box.value⟩ := by
  simp [onCommentKeyEnter]

end Sarif
